import Mathlib

/-!
# Verification of the nexia-list core (`nexia-core`)

Shallow embedding of `src/core/src/note.rs`, `src/core/src/notebook.rs` and
`src/core/src/storage.rs`.

Modelling conventions:
* `Uuid` (`NoteId`) is modelled by its string form (`String`); `Uuid::new_v4`
  and `Utc::now` are external effects, so fresh ids and current times are
  passed as explicit parameters to the operations that consume them.
* `chrono::DateTime<Utc>` is modelled by `Nat`; its serde codec (an RFC3339
  string, injective on instants) is modelled as an atomic JSON scalar.
* `f64` is modelled by `F64`: a finite double (embedding injectively into
  the rationals, printed/parsed losslessly by `serde_json`) or one of the
  non-finite values NaN / infinity, which `serde_json` serializes as `null`
  and refuses to deserialize back into an `f64`.
* `HashMap` is modelled as an association list with unique keys and
  `HashSet` as a duplicate-free list; only membership/lookup observations
  are stated about them, matching their unordered semantics.
-/

set_option maxHeartbeats 1000000

/-! ## Association-list and set helpers (model of `HashMap` / `HashSet`) -/

/-- Model of `HashMap::get`: first value stored at key `k`. -/
def alGet {α β : Type} [DecidableEq α] (k : α) : List (α × β) → Option β
  | [] => none
  | (k', v) :: rest => if k = k' then some v else alGet k rest

/-- Model of `HashMap::insert`: replace the value at `k`, or append a fresh entry. -/
def alInsert {α β : Type} [DecidableEq α] (k : α) (v : β) : List (α × β) → List (α × β)
  | [] => [(k, v)]
  | (k', v') :: rest => if k = k' then (k, v) :: rest else (k', v') :: alInsert k v rest

/-- Model of `HashMap::get_mut` followed by an in-place mutation `f`; no-op if `k` is absent. -/
def alUpdate {α β : Type} [DecidableEq α] (k : α) (f : β → β) : List (α × β) → List (α × β)
  | [] => []
  | (k', v') :: rest => if k = k' then (k', f v') :: rest else (k', v') :: alUpdate k f rest

/-- Model of `HashMap::remove` (key and value dropped). -/
def alRemove {α β : Type} [DecidableEq α] (k : α) (l : List (α × β)) : List (α × β) :=
  l.filter (fun p => p.1 ≠ k)

/-- Model of `HashMap::entry(k).or_default()` followed by an in-place mutation `f`. -/
def alUpsert {α β : Type} [DecidableEq α] (k : α) (d : β) (f : β → β)
    (l : List (α × β)) : List (α × β) :=
  if (alGet k l).isSome then alUpdate k f l else l ++ [(k, f d)]

/-- Model of `HashSet::insert`. -/
def setInsert {α : Type} [DecidableEq α] (x : α) (s : List α) : List α :=
  if x ∈ s then s else x :: s

/-- Model of `HashSet::remove`. -/
def setRemove {α : Type} [DecidableEq α] (x : α) (s : List α) : List α :=
  s.filter (fun y => y ≠ x)

/-! ## Data model (`note.rs`, `notebook.rs`) -/

/-- Model of `type NoteId = Uuid`, modelled by the uuid's string form. -/
abbrev NoteId : Type := String

/-- Model of `serde_json::Value`: the open-ended attribute value.  `num` models a
finite double, `time` models an RFC3339 datetime string scalar. -/
inductive Json : Type where
  | null : Json
  | bool (b : Bool) : Json
  | num (q : Rat) : Json
  | str (s : String) : Json
  | time (t : Nat) : Json
  | arr (xs : List Json) : Json
  | obj (fs : List (String × Json)) : Json

/-- Model of `f64`: either a finite double (an exactly-represented
rational) or a non-finite value (`NaN`, `+inf`, `-inf`). -/
inductive F64 : Type where
  | finite (q : Rat) : F64
  | nan : F64
  | inf : F64
  | neginf : F64
deriving DecidableEq

/-- Whether an `f64` value is finite. -/
def F64.isFinite : F64 → Bool
  | .finite _ => true
  | _ => false

/-- Model of `Point2D { x: f64, y: f64 }`. -/
structure Point2D where
  x : F64
  y : F64
deriving DecidableEq

/-- Model of `struct Note` from `note.rs`. -/
structure Note where
  id : NoteId
  title : String
  content : String
  position : Option Point2D
  size : Option (F64 × F64)
  created_at : Nat
  modified_at : Nat
  links : List NoteId
  prototype : Option NoteId
  attributes : List (String × Json)

/-- Model of `Note::new` (`Uuid::new_v4()` and `Utc::now()` passed explicitly). -/
def Note.new (id : NoteId) (title : String) (now : Nat) : Note :=
  { id := id, title := title, content := "", position := none, size := none
    created_at := now, modified_at := now, links := [], prototype := none
    attributes := [] }

/-- Model of `Note::touch`. -/
def Note.touch (n : Note) (now : Nat) : Note :=
  { n with modified_at := now }

/-- Model of `Note::add_link`: push `target` and touch unless it is already present or
is the note's own id. -/
def Note.add_link (n : Note) (target : NoteId) (now : Nat) : Note :=
  if target ∉ n.links ∧ target ≠ n.id then
    { n with links := n.links ++ [target], modified_at := now }
  else n

/-- Model of `Note::remove_link`: erase the first occurrence and touch; report whether
a removal happened. -/
def Note.remove_link (n : Note) (target : NoteId) (now : Nat) : Note × Bool :=
  if target ∈ n.links then
    ({ n with links := n.links.erase target, modified_at := now }, true)
  else (n, false)

/-- Model of `Note::links_to`. -/
def Note.links_to (n : Note) (target : NoteId) : Bool :=
  n.links.contains target

/-- Model of `enum NotebookError`. -/
inductive NotebookError : Type where
  | NoteNotFound (id : NoteId) : NotebookError
  | CircularLink : NotebookError
deriving DecidableEq

/-- Model of `struct Notebook` from `notebook.rs`. -/
structure Notebook where
  notes : List (NoteId × Note)
  backlinks : List (NoteId × List NoteId)
  name : String
  created_at : Nat
  modified_at : Nat

/-- Model of `Notebook::new`. -/
def Notebook.new (name : String) (now : Nat) : Notebook :=
  { notes := [], backlinks := [], name := name, created_at := now, modified_at := now }

/-- Model of `Notebook::len`. -/
def Notebook.len (nb : Notebook) : Nat :=
  nb.notes.length

/-- Model of `Notebook::touch` (private). -/
def Notebook.touch (nb : Notebook) (now : Nat) : Notebook :=
  { nb with modified_at := now }

/-- Model of `Notebook::add_note`: register a backlink `backlinks[target] += {id}` for
every `target` in the note's `links`, then insert the note and touch. -/
def Notebook.add_note (nb : Notebook) (note : Note) (now : Nat) : NoteId × Notebook :=
  let id := note.id
  let bl := note.links.foldl (fun bl t => alUpsert t [] (setInsert id) bl) nb.backlinks
  (id, { nb with notes := alInsert id note nb.notes, backlinks := bl, modified_at := now })

/-- Model of `Notebook::create_note`: build a fresh note and `add_note` it. -/
def Notebook.create_note (nb : Notebook) (id : NoteId) (title : String) (now : Nat) :
    NoteId × Notebook :=
  nb.add_note (Note.new id title now) now

/-- Model of `Notebook::get_note`. -/
def Notebook.get_note (nb : Notebook) (id : NoteId) : Option Note :=
  alGet id nb.notes

/-- Model of `Notebook::get_note_mut`: touches the notebook first, then looks up; the
returned `Option Note` models the handed-out mutable reference. -/
def Notebook.get_note_mut (nb : Notebook) (id : NoteId) (now : Nat) :
    Option Note × Notebook :=
  (alGet id nb.notes, nb.touch now)

/-- Model of `Notebook::remove_note`: take the note out, clean `backlinks[target]` for
each of its targets, then walk `backlinks[id]` and strip `id` from every
source's `links`, dropping `backlinks[id]` itself. -/
def Notebook.remove_note (nb : Notebook) (id : NoteId) (now : Nat) :
    Option Note × Notebook :=
  match alGet id nb.notes with
  | none => (none, nb)
  | some note =>
    let notes1 := alRemove id nb.notes
    let bl1 := note.links.foldl (fun bl t => alUpdate t (setRemove id) bl) nb.backlinks
    let sources := (alGet id bl1).getD []
    let bl2 := alRemove id bl1
    let notes2 := sources.foldl
      (fun ns s => alUpdate s (fun n => (n.remove_link id now).1) ns) notes1
    (some note, { nb with notes := notes2, backlinks := bl2, modified_at := now })

/-- Model of `Notebook::link_notes`: check both endpoints, `add_link` on the source,
and unconditionally insert `from` into `backlinks[to]`. -/
def Notebook.link_notes (nb : Notebook) (f t : NoteId) (now : Nat) :
    Except NotebookError Unit × Notebook :=
  if (alGet f nb.notes).isNone then (.error (.NoteNotFound f), nb)
  else if (alGet t nb.notes).isNone then (.error (.NoteNotFound t), nb)
  else
    let notes1 := alUpdate f (fun n => n.add_link t now) nb.notes
    let bl1 := alUpsert t [] (setInsert f) nb.backlinks
    (.ok (), { nb with notes := notes1, backlinks := bl1, modified_at := now })

/-- Model of `Notebook::unlink_notes`: fail only when `from` is absent; remove the
forward link and the backlink entry if they exist. -/
def Notebook.unlink_notes (nb : Notebook) (f t : NoteId) (now : Nat) :
    Except NotebookError Unit × Notebook :=
  if (alGet f nb.notes).isNone then (.error (.NoteNotFound f), nb)
  else
    let notes1 := alUpdate f (fun n => (n.remove_link t now).1) nb.notes
    let bl1 := alUpdate t (setRemove f) nb.backlinks
    (.ok (), { nb with notes := notes1, backlinks := bl1, modified_at := now })

/-- Model of `Notebook::get_backlinks`: the stored reverse-link set, empty if absent. -/
def Notebook.get_backlinks (nb : Notebook) (id : NoteId) : List NoteId :=
  (alGet id nb.backlinks).getD []

/-- Model of `Notebook::all_notes` (`self.notes.values()`). -/
def Notebook.notesVals (nb : Notebook) : List Note :=
  nb.notes.map Prod.snd

/-- Rust `str::to_lowercase`, modelled as the character-wise lowercase map
(the agreed lowercasing function applied to both query and field). -/
def rustLower (s : String) : String :=
  ⟨s.data.map Char.toLower⟩

/-- Rust `str::contains`: substring test. -/
def strContains (s pat : String) : Bool :=
  decide (pat.toList <:+: s.toList)

/-- Model of `Notebook::search_by_title`: case-insensitive substring match on titles. -/
def Notebook.search_by_title (nb : Notebook) (query : String) : List Note :=
  nb.notesVals.filter (fun n => strContains (rustLower n.title) (rustLower query))

/-- Model of `Notebook::search_by_content`. -/
def Notebook.search_by_content (nb : Notebook) (query : String) : List Note :=
  nb.notesVals.filter (fun n => strContains (rustLower n.content) (rustLower query))

/-- Model of `Notebook::search`: title or content. -/
def Notebook.search (nb : Notebook) (query : String) : List Note :=
  nb.notesVals.filter
    (fun n => strContains (rustLower n.title) (rustLower query)
      || strContains (rustLower n.content) (rustLower query))

/-! ## Lemmas about the map/set helpers -/

section AlLemmas

variable {α β : Type} [DecidableEq α]

theorem alGet_nil (k : α) : alGet (β := β) k [] = none := rfl

theorem alGet_append (k : α) (l1 l2 : List (α × β)) :
    alGet k (l1 ++ l2) = ((alGet k l1).elim (alGet k l2) some) := by
  induction l1 with
  | nil => simp [alGet]
  | cons p rest ih =>
    obtain ⟨k', v⟩ := p
    by_cases h : k = k' <;> simp [alGet, h, ih]

theorem alGet_alInsert_self (k : α) (v : β) (l : List (α × β)) :
    alGet k (alInsert k v l) = some v := by
  induction l with
  | nil => simp [alInsert, alGet]
  | cons p rest ih =>
    obtain ⟨k', v'⟩ := p
    by_cases h : k = k' <;> simp [alInsert, alGet, h, ih]

theorem alGet_alInsert_ne {k k' : α} (h : k ≠ k') (v : β) (l : List (α × β)) :
    alGet k (alInsert k' v l) = alGet k l := by
  induction l with
  | nil => simp [alInsert, alGet, h]
  | cons p rest ih =>
    obtain ⟨k'', v''⟩ := p
    by_cases h2 : k' = k''
    · subst h2; simp [alInsert, alGet, h]
    · by_cases h3 : k = k'' <;> simp [alInsert, alGet, h2, h3, ih]

theorem alGet_alUpdate_self (k : α) (f : β → β) (l : List (α × β)) :
    alGet k (alUpdate k f l) = (alGet k l).map f := by
  induction l with
  | nil => simp [alUpdate, alGet]
  | cons p rest ih =>
    obtain ⟨k', v⟩ := p
    by_cases h : k = k' <;> simp [alUpdate, alGet, h, ih]

theorem alGet_alUpdate_ne {k k' : α} (h : k ≠ k') (f : β → β) (l : List (α × β)) :
    alGet k (alUpdate k' f l) = alGet k l := by
  induction l with
  | nil => simp [alUpdate, alGet]
  | cons p rest ih =>
    obtain ⟨k'', v''⟩ := p
    by_cases h2 : k' = k''
    · subst h2; simp [alUpdate, alGet, h]
    · by_cases h3 : k = k'' <;> simp [alUpdate, alGet, h2, h3, ih]

theorem alGet_alRemove_self (k : α) (l : List (α × β)) :
    alGet k (alRemove k l) = none := by
  induction l with
  | nil => simp [alRemove, alGet]
  | cons p rest ih =>
    obtain ⟨k', v⟩ := p
    by_cases h : k' = k
    · simpa [alRemove, alGet, h] using ih
    · have h2 : k ≠ k' := fun hh => h hh.symm
      simpa [alRemove, alGet, h, h2] using ih

theorem alGet_alRemove_ne {k k' : α} (h : k ≠ k') (l : List (α × β)) :
    alGet k (alRemove k' l) = alGet k l := by
  induction l with
  | nil => simp [alRemove, alGet]
  | cons p rest ih =>
    obtain ⟨k'', v''⟩ := p
    by_cases h2 : k'' = k'
    · subst h2
      simpa [alRemove, alGet, h] using ih
    · by_cases h3 : k = k''
      · simp [alRemove, alGet, h2, h3]
      · simp [alRemove, alGet, h2, h3]
        simpa [alRemove] using ih

theorem alGet_alUpsert_self (k : α) (d : β) (f : β → β) (l : List (α × β)) :
    alGet k (alUpsert k d f l) = some (f ((alGet k l).getD d)) := by
  unfold alUpsert
  cases h : alGet k l with
  | none => simp [h, alGet_append, alGet]
  | some v => simp [h, alGet_alUpdate_self]

theorem alGet_alUpsert_ne {k k' : α} (h : k ≠ k') (d : β) (f : β → β) (l : List (α × β)) :
    alGet k (alUpsert k' d f l) = alGet k l := by
  unfold alUpsert
  cases h2 : alGet k' l with
  | none =>
    simp [h2, alGet_append, alGet, h]
    cases alGet k l <;> rfl
  | some v => simp [h2, alGet_alUpdate_ne h]

theorem alUpdate_congr {k : α} {f : β → β} {l : List (α × β)}
    (h : ∀ v, alGet k l = some v → f v = v) : alUpdate k f l = l := by
  induction l with
  | nil => rfl
  | cons p rest ih =>
    obtain ⟨k', v⟩ := p
    by_cases h2 : k = k'
    · subst h2
      have := h v (by simp [alGet])
      simp [alUpdate, this]
    · simp [alUpdate, h2]
      exact ih (fun v hv => h v (by simpa [alGet, h2] using hv))

theorem mem_setInsert_iff {x y : α} {s : List α} :
    y ∈ setInsert x s ↔ y = x ∨ y ∈ s := by
  unfold setInsert
  by_cases h : x ∈ s
  · simp [h]
    intro he; subst he; exact h
  · simp [h]

theorem not_mem_setRemove (x : α) (s : List α) : x ∉ setRemove x s := by
  simp [setRemove]

theorem mem_setRemove_iff {x y : α} {s : List α} :
    y ∈ setRemove x s ↔ y ∈ s ∧ y ≠ x := by
  simp [setRemove]

end AlLemmas

/-! ## Folded-update lemmas (the loops in `add_note` / `remove_note`) -/

section FoldLemmas

variable {α β : Type} [DecidableEq α]

/-- A left fold of key-wise updates does not touch keys outside the folded list. -/
theorem alGet_foldl_alUpdate_not_mem (g : β → β) (ts : List α) (l : List (α × β))
    (k : α) (hk : k ∉ ts) :
    alGet k (ts.foldl (fun acc t => alUpdate t g acc) l) = alGet k l := by
  induction ts generalizing l with
  | nil => rfl
  | cons t rest ih =>
    have hne : k ≠ t := fun he => hk (he ▸ List.mem_cons_self t rest)
    have hk2 : k ∉ rest := fun hm => hk (List.mem_cons_of_mem t hm)
    simp only [List.foldl_cons]
    rw [ih (alUpdate t g l) hk2, alGet_alUpdate_ne hne]

/-- A property of the stored value at a fixed key, preserved by the update
function, survives a left fold of key-wise updates. -/
theorem alGet_foldl_alUpdate_pres (g : β → β) (P : β → Prop)
    (hPg : ∀ b, P b → P (g b)) (ts : List α) (l : List (α × β)) (k : α)
    (h : ∀ v, alGet k l = some v → P v) :
    ∀ v, alGet k (ts.foldl (fun acc t => alUpdate t g acc) l) = some v → P v := by
  induction ts generalizing l with
  | nil => exact h
  | cons t rest ih =>
    simp only [List.foldl_cons]
    refine ih (alUpdate t g l) ?_
    intro v hv
    by_cases he : k = t
    · subst he
      rw [alGet_alUpdate_self] at hv
      cases h2 : alGet k l with
      | none => rw [h2] at hv; exact absurd hv (by simp)
      | some v0 => rw [h2] at hv; simp at hv; exact hv ▸ hPg v0 (h v0 h2)
    · rw [alGet_alUpdate_ne he] at hv
      exact h v hv

/-- A property that holds of every stored value, preserved by the update
function, still holds of every stored value after the fold. -/
theorem alGet_foldl_alUpdate_all (g : β → β) (Q : β → Prop)
    (hQg : ∀ b, Q b → Q (g b)) (ts : List α) (l : List (α × β))
    (h : ∀ k v, alGet k l = some v → Q v) :
    ∀ k v, alGet k (ts.foldl (fun acc t => alUpdate t g acc) l) = some v → Q v := by
  induction ts generalizing l with
  | nil => exact h
  | cons t rest ih =>
    simp only [List.foldl_cons]
    refine ih (alUpdate t g l) ?_
    intro k v hv
    by_cases he : k = t
    · subst he
      rw [alGet_alUpdate_self] at hv
      cases h2 : alGet k l with
      | none => rw [h2] at hv; exact absurd hv (by simp)
      | some v0 => rw [h2] at hv; simp at hv; exact hv ▸ hQg v0 (h k v0 h2)
    · rw [alGet_alUpdate_ne he] at hv
      exact h k v hv

/-- After folding key-wise updates over a list containing `k`, the value at
`k` satisfies any property `P` that the update establishes from `Q` and
preserves, provided every stored value satisfied `Q` beforehand. -/
theorem alGet_foldl_alUpdate_mem (g : β → β) (P Q : β → Prop)
    (hQg : ∀ b, Q b → Q (g b)) (hQP : ∀ b, Q b → P (g b)) (hPg : ∀ b, P b → P (g b))
    (ts : List α) (l : List (α × β)) (hQ : ∀ k v, alGet k l = some v → Q v)
    (k : α) (hk : k ∈ ts) :
    ∀ v, alGet k (ts.foldl (fun acc t => alUpdate t g acc) l) = some v → P v := by
  induction ts generalizing l with
  | nil => cases hk
  | cons t rest ih =>
    simp only [List.foldl_cons]
    by_cases he : k = t
    · subst he
      by_cases hr : k ∈ rest
      · exact ih (alUpdate k g l) (alGet_foldl_alUpdate_all (α := α) g Q hQg [k] l hQ) hr
      · refine alGet_foldl_alUpdate_pres g P hPg rest (alUpdate k g l) k ?_
        intro v hv
        rw [alGet_alUpdate_self] at hv
        cases h2 : alGet k l with
        | none => rw [h2] at hv; exact absurd hv (by simp)
        | some v0 => rw [h2] at hv; simp at hv; exact hv ▸ hQP v0 (hQ k v0 h2)
    · have hr : k ∈ rest := by
        cases hk with
        | head => exact absurd rfl he
        | tail _ hm => exact hm
      exact ih (alUpdate t g l) (alGet_foldl_alUpdate_all (α := α) g Q hQg [t] l hQ) hr

/-- An absent key stays absent under a fold of key-wise updates. -/
theorem alGet_foldl_alUpdate_none (g : β → β) (ts : List α) (l : List (α × β))
    (k : α) (h : alGet k l = none) :
    alGet k (ts.foldl (fun acc t => alUpdate t g acc) l) = none := by
  induction ts generalizing l with
  | nil => exact h
  | cons t rest ih =>
    simp only [List.foldl_cons]
    refine ih (alUpdate t g l) ?_
    by_cases he : k = t
    · subst he; rw [alGet_alUpdate_self, h]; rfl
    · rw [alGet_alUpdate_ne he]; exact h

/-- If a value is stored, `alGet` found a genuine entry of the list. -/
theorem alGet_mem {k : α} {v : β} {l : List (α × β)} (h : alGet k l = some v) :
    (k, v) ∈ l := by
  induction l with
  | nil => simp [alGet] at h
  | cons p rest ih =>
    obtain ⟨k', v'⟩ := p
    by_cases he : k = k'
    · subst he
      simp [alGet] at h
      simp [h]
    · simp [alGet, he] at h
      exact List.mem_cons_of_mem _ (ih h)

end FoldLemmas

/-- Membership of `idv` in the set at key `t` is preserved by the
`entry(x).or_default().insert(idv)` loop of `add_note`. -/
theorem upsertIns_fold_pres (idv t : NoteId) (rest : List NoteId)
    (bl : List (NoteId × List NoteId)) (base : idv ∈ (alGet t bl).getD []) :
    idv ∈ (alGet t (rest.foldl (fun acc x => alUpsert x [] (setInsert idv) acc) bl)).getD [] := by
  induction rest generalizing bl with
  | nil => exact base
  | cons y rest2 ih =>
    simp only [List.foldl_cons]
    refine ih _ ?_
    by_cases hy : t = y
    · subst hy
      rw [alGet_alUpsert_self]
      simp [mem_setInsert_iff]
    · rw [alGet_alUpsert_ne hy]
      exact base

/-- Model of `backlinks[t]` gains member `idv` once `t` is processed by the
`entry(t).or_default().insert(idv)` loop of `add_note`. -/
theorem upsertIns_fold_mem (idv : NoteId) (ts : List NoteId)
    (bl : List (NoteId × List NoteId)) (t : NoteId) (ht : t ∈ ts) :
    idv ∈ (alGet t (ts.foldl (fun acc x => alUpsert x [] (setInsert idv) acc) bl)).getD [] := by
  induction ts generalizing bl with
  | nil => cases ht
  | cons x rest ih =>
    simp only [List.foldl_cons]
    by_cases hr : t ∈ rest
    · exact ih _ hr
    · have he : t = x := by
        cases ht with
        | head => rfl
        | tail _ hm => exact absurd hm hr
      subst he
      refine upsertIns_fold_pres idv t rest _ ?_
      rw [alGet_alUpsert_self]
      simp [mem_setInsert_iff]

/-! ## Note-level lemmas -/

theorem Note.add_link_id (n : Note) (target : NoteId) (now : Nat) :
    (n.add_link target now).id = n.id := by
  unfold Note.add_link
  split <;> rfl

/-- Model of `add_link` is idempotent on the note (second call is a complete no-op). -/
theorem Note.add_link_twice (n : Note) (target : NoteId) (t1 t2 : Nat) :
    (n.add_link target t1).add_link target t2 = n.add_link target t1 := by
  unfold Note.add_link
  by_cases h : target ∉ n.links ∧ target ≠ n.id
  · simp [h]
  · simp [h]

theorem setInsert_of_mem {α : Type} [DecidableEq α] {x : α} {s : List α} (h : x ∈ s) :
    setInsert x s = s := by
  simp [setInsert, h]

/-- The backlink `entry(to).or_default().insert(from)` step is idempotent. -/
theorem alUpsert_setInsert_idem (t f : NoteId) (bl : List (NoteId × List NoteId)) :
    alUpsert t [] (setInsert f) (alUpsert t [] (setInsert f) bl) =
      alUpsert t [] (setInsert f) bl := by
  set bl1 := alUpsert t [] (setInsert f) bl with hbl1
  have h1 : alGet t bl1 = some (setInsert f ((alGet t bl).getD [])) := by
    rw [hbl1]; exact alGet_alUpsert_self ..
  show alUpsert t [] (setInsert f) bl1 = bl1
  unfold alUpsert
  rw [h1]
  simp only [Option.isSome_some, if_pos]
  apply alUpdate_congr
  intro v hv
  rw [h1] at hv
  cases hv
  exact setInsert_of_mem (by simp [mem_setInsert_iff])

/-! ## Claim C9: `get_note_mut` touches unconditionally -/

/-- C9: `get_note_mut` advances the notebook's `modified_at` before the
lookup, so calling it with an absent id returns `none` yet still sets
`modified_at` to the current time, leaving all other notebook state
unchanged. -/
theorem getNoteMut_touches_even_when_absent (nb : Notebook) (id : NoteId) (now : Nat)
    (h : nb.get_note id = none) :
    (nb.get_note_mut id now).2.modified_at = now ∧
    (nb.get_note_mut id now).1 = none ∧
    (nb.get_note_mut id now).2.notes = nb.notes ∧
    (nb.get_note_mut id now).2.backlinks = nb.backlinks ∧
    (nb.get_note_mut id now).2.name = nb.name ∧
    (nb.get_note_mut id now).2.created_at = nb.created_at := by
  refine ⟨rfl, ?_, rfl, rfl, rfl, rfl⟩
  exact h

/-- Witness for C9 at a concrete notebook and an absent id. -/
theorem getNoteMut_touches_even_when_absent_witness :
    ((Notebook.new "N" 0).get_note_mut "ghost" 7).2.modified_at = 7 ∧
    ((Notebook.new "N" 0).get_note_mut "ghost" 7).1 = none ∧
    ((Notebook.new "N" 0).get_note_mut "ghost" 7).2.notes = (Notebook.new "N" 0).notes ∧
    ((Notebook.new "N" 0).get_note_mut "ghost" 7).2.backlinks = (Notebook.new "N" 0).backlinks ∧
    ((Notebook.new "N" 0).get_note_mut "ghost" 7).2.name = (Notebook.new "N" 0).name ∧
    ((Notebook.new "N" 0).get_note_mut "ghost" 7).2.created_at = (Notebook.new "N" 0).created_at :=
  getNoteMut_touches_even_when_absent (Notebook.new "N" 0) "ghost" 7 rfl

/-! ## Claim C10: `add_note` registers backlinks even for absent targets -/

/-- C10: `add_note` inserts the caller-constructed note as-is and registers
`note.id` in `backlinks[t]` for every `t` in the note's `links`, with no
check that `t` is a key of the notes map; hence `get_backlinks` can be
non-empty for an id that is not in the notebook. -/
theorem addNote_inserts_as_is_and_registers_backlinks (nb : Notebook) (note : Note)
    (now : Nat) (t : NoteId) (ht : t ∈ note.links) :
    (nb.add_note note now).2.get_note note.id = some note ∧
    note.id ∈ (nb.add_note note now).2.get_backlinks t := by
  constructor
  · show alGet note.id (alInsert note.id note nb.notes) = some note
    exact alGet_alInsert_self ..
  · show note.id ∈ (alGet t (note.links.foldl
      (fun bl t => alUpsert t [] (setInsert note.id) bl) nb.backlinks)).getD []
    exact upsertIns_fold_mem note.id note.links nb.backlinks t ht

/-- The caller-built note carrying a link to an id that is in no notebook. -/
def ghostNote : Note :=
  { Note.new "x" "X" 0 with links := ["ghost"] }

/-- Witness for C10: after adding `ghostNote`, `"ghost"` is not a note of the
notebook, yet `get_backlinks "ghost"` reports `"x"`. -/
theorem addNote_dangling_backlink_witness :
    ((Notebook.new "N" 0).add_note ghostNote 1).2.get_note "ghost" = none ∧
    ghostNote.id ∈ ((Notebook.new "N" 0).add_note ghostNote 1).2.get_backlinks "ghost" :=
  ⟨rfl, (addNote_inserts_as_is_and_registers_backlinks (Notebook.new "N" 0) ghostNote 1
    "ghost" (by decide)).2⟩

/-! ## Claim C4: `link_notes` error behaviour and atomicity -/

/-- C4: `link_notes(from, to)` returns `NoteNotFound` exactly when `from` or
`to` is absent, naming the absent id (`from` is checked first), and in both
failure cases the whole notebook — every note and the backlink index — is
returned unchanged; when both ids are present the call succeeds. -/
theorem linkNotes_notFound_and_atomic (nb : Notebook) (f t : NoteId) (now : Nat) :
    (nb.get_note f = none → nb.link_notes f t now = (.error (.NoteNotFound f), nb)) ∧
    (nb.get_note f ≠ none → nb.get_note t = none →
      nb.link_notes f t now = (.error (.NoteNotFound t), nb)) ∧
    (nb.get_note f ≠ none → nb.get_note t ≠ none →
      (nb.link_notes f t now).1 = .ok ()) := by
  unfold Notebook.link_notes Notebook.get_note
  refine ⟨?_, ?_, ?_⟩
  · intro h
    simp [h]
  · intro hf ht
    rw [Option.ne_none_iff_isSome] at hf
    simp [Option.isNone, ht]
    cases h2 : alGet f nb.notes with
    | none => rw [h2] at hf; cases hf
    | some v => simp
  · intro hf ht
    rw [Option.ne_none_iff_isSome] at hf ht
    cases h2 : alGet f nb.notes with
    | none => rw [h2] at hf; cases hf
    | some v =>
      cases h3 : alGet t nb.notes with
      | none => rw [h3] at ht; cases ht
      | some w => simp [h2, h3]

/-- Witness for C4: linking to an absent target fails naming the target and
leaves the notebook untouched; linking two present notes succeeds. -/
theorem linkNotes_notFound_and_atomic_witness :
    (((Notebook.new "N" 0).create_note "a" "A" 1).2.link_notes "a" "zz" 2 =
      (.error (.NoteNotFound "zz"), ((Notebook.new "N" 0).create_note "a" "A" 1).2)) :=
  (linkNotes_notFound_and_atomic ((Notebook.new "N" 0).create_note "a" "A" 1).2
    "a" "zz" 2).2.1 (by simp [Notebook.get_note, Notebook.create_note, Notebook.add_note,
      Note.new, alGet, alInsert]) rfl

/-! ## Claim C1: the backlink mirror invariant (violated by a self-link) -/

/-- A notebook reached from `Notebook::new` by one `create_note` and one
`link_notes` call with `from == to`. -/
def selfLinkNb : Notebook :=
  (((Notebook.new "N" 0).create_note "a" "A" 1).2.link_notes "a" "a" 2).2

/-- C1 (refuted, code bug): after `link_notes("a", "a")` on a notebook whose
only note is `"a"`, the backlink index reports `"a" ∈ backlinks["a"]` while
note `"a"`'s `links` is empty — `Note::add_link` rejects the self-link but
`link_notes` inserts the backlink unconditionally, so the index holds a
stale member and `T ∈ S.links ⇔ S ∈ backlinks[T]` fails at `S = T = "a"`. -/
theorem linkNotes_self_creates_stale_backlink :
    selfLinkNb.get_backlinks "a" = ["a"] ∧
    (selfLinkNb.get_note "a").map Note.links = some [] :=
  ⟨rfl, rfl⟩

/-! ## Claim C5: idempotence of linking -/

/-- C5: with `from` and `to` both present, applying `link_notes(from, to)`
twice yields the same `notes` map (hence the same `links` vector of every
note) and the same backlink index as applying it once; and `Note::add_link`
applied twice leaves the same `links` as applied once. -/
theorem linkNotes_idempotent (nb : Notebook) (f t : NoteId) (n1 n2 : Nat)
    (hf : (nb.get_note f).isSome = true) (ht : (nb.get_note t).isSome = true) :
    (((nb.link_notes f t n1).2.link_notes f t n2).2.notes =
        (nb.link_notes f t n1).2.notes ∧
      ((nb.link_notes f t n1).2.link_notes f t n2).2.backlinks =
        (nb.link_notes f t n1).2.backlinks) ∧
    ∀ (m : Note) (u : NoteId) (t1 t2 : Nat),
      ((m.add_link u t1).add_link u t2).links = (m.add_link u t1).links := by
  unfold Notebook.get_note at hf ht
  refine ⟨?_, fun m u t1 t2 => by rw [Note.add_link_twice]⟩
  cases h2 : alGet f nb.notes with
  | none => rw [h2] at hf; cases hf
  | some nf =>
  cases h3 : alGet t nb.notes with
  | none => rw [h3] at ht; cases ht
  | some nt =>
  have step1 : nb.link_notes f t n1 =
      (.ok (),
        { nb with
            notes := alUpdate f (fun n => n.add_link t n1) nb.notes,
            backlinks := alUpsert t [] (setInsert f) nb.backlinks,
            modified_at := n1 }) := by
    unfold Notebook.link_notes
    simp [h2, h3]
  rw [step1]
  have h2b : alGet f (alUpdate f (fun n => n.add_link t n1) nb.notes) =
      some (nf.add_link t n1) := by
    rw [alGet_alUpdate_self, h2]; rfl
  have h3b : (alGet t (alUpdate f (fun n => n.add_link t n1) nb.notes)).isSome = true := by
    by_cases he : t = f
    · subst he; rw [h2b]; rfl
    · rw [alGet_alUpdate_ne he, h3]; rfl
  have step2 : ∀ v, alGet f (alUpdate f (fun n => n.add_link t n1) nb.notes) = some v →
      v.add_link t n2 = v := by
    intro v hv
    rw [h2b] at hv
    cases hv
    exact Note.add_link_twice ..
  unfold Notebook.link_notes
  rw [h2b]
  simp only [Option.isSome_some, Option.isNone_some, Bool.false_eq_true, if_false]
  cases h4 : alGet t (alUpdate f (fun n => n.add_link t n1) nb.notes) with
  | none => rw [h4] at h3b; cases h3b
  | some w =>
    simp only [Option.isNone_some, Bool.false_eq_true, if_false]
    constructor
    · exact alUpdate_congr step2
    · exact alUpsert_setInsert_idem ..

/-- Witness for C5 on a two-note notebook. -/
theorem linkNotes_idempotent_witness :
    let nb2 := (((Notebook.new "N" 0).create_note "a" "A" 1).2.create_note "b" "B" 1).2
    ((nb2.link_notes "a" "b" 2).2.link_notes "a" "b" 3).2.notes =
      (nb2.link_notes "a" "b" 2).2.notes ∧
    ((nb2.link_notes "a" "b" 2).2.link_notes "a" "b" 3).2.backlinks =
      (nb2.link_notes "a" "b" 2).2.backlinks :=
  (linkNotes_idempotent _ "a" "b" 2 3 (by decide) (by decide)).1

/-! ## Claim C7: `unlink_notes` precondition and effect -/

/-- C7: `unlink_notes(from, to)` fails with `NoteNotFound(from)` exactly
when `from` is absent (the notebook is then returned unchanged); `to` is
never required to exist.  On success it returns `Ok`, the source note's
`links` become the old `links` with the first `to` erased (so `to` is no
longer a member), `from` is no longer in `backlinks[to]`, and all other
notes and backlink sets are untouched — all even when no link existed. -/
theorem unlinkNotes_spec (nb : Notebook) (f t : NoteId) (now : Nat)
    (hnd : ∀ p ∈ nb.notes, p.2.links.Nodup) :
    (nb.get_note f = none → nb.unlink_notes f t now = (.error (.NoteNotFound f), nb)) ∧
    (∀ nf, nb.get_note f = some nf →
      (nb.unlink_notes f t now).1 = .ok () ∧
      (∀ n, (nb.unlink_notes f t now).2.get_note f = some n →
        n.links = nf.links.erase t ∧ t ∉ n.links) ∧
      f ∉ (nb.unlink_notes f t now).2.get_backlinks t ∧
      (∀ k, k ≠ f → (nb.unlink_notes f t now).2.get_note k = nb.get_note k) ∧
      (∀ k, k ≠ t → (nb.unlink_notes f t now).2.get_backlinks k = nb.get_backlinks k)) := by
  constructor
  · intro h
    unfold Notebook.get_note at h
    unfold Notebook.unlink_notes
    simp [h]
  · intro nf hf
    unfold Notebook.get_note at hf
    have hstep : nb.unlink_notes f t now =
        (.ok (),
          { nb with
              notes := alUpdate f (fun n => (n.remove_link t now).1) nb.notes,
              backlinks := alUpdate t (setRemove f) nb.backlinks,
              modified_at := now }) := by
      unfold Notebook.unlink_notes
      simp [hf]
    rw [hstep]
    have hlinks : ((nf.remove_link t now).1).links = nf.links.erase t := by
      unfold Note.remove_link
      by_cases hm : t ∈ nf.links
      · simp [hm]
      · simp [hm, List.erase_of_not_mem hm]
    have hresf : alGet f (alUpdate f (fun n => (n.remove_link t now).1) nb.notes) =
        some ((nf.remove_link t now).1) := by
      rw [alGet_alUpdate_self, hf]; rfl
    refine ⟨rfl, ?_, ?_, ?_, ?_⟩
    · intro n hn
      unfold Notebook.get_note at hn
      simp only at hn
      rw [hresf] at hn
      cases hn
      refine ⟨hlinks, ?_⟩
      rw [hlinks]
      exact (hnd (f, nf) (alGet_mem hf)).not_mem_erase
    · show f ∉ (alGet t (alUpdate t (setRemove f) nb.backlinks)).getD []
      rw [alGet_alUpdate_self]
      cases alGet t nb.backlinks with
      | none => simp
      | some s => simpa using not_mem_setRemove f s
    · intro k hk
      show alGet k (alUpdate f (fun n => (n.remove_link t now).1) nb.notes) = alGet k nb.notes
      exact alGet_alUpdate_ne hk _ _
    · intro k hk
      show (alGet k (alUpdate t (setRemove f) nb.backlinks)).getD [] =
        (alGet k nb.backlinks).getD []
      rw [alGet_alUpdate_ne hk]

/-- A concrete two-note notebook used by witnesses. -/
def twoNoteNb : Notebook :=
  (((Notebook.new "N" 0).create_note "a" "A" 1).2.create_note "b" "B" 1).2

/-- Witness for C7: removing a dangling link (absent target) succeeds on a
concrete notebook with nodup links. -/
theorem unlinkNotes_spec_witness :
    (twoNoteNb.unlink_notes "a" "zz" 2).1 = .ok () :=
  ((unlinkNotes_spec twoNoteNb "a" "zz" 2 (by decide)).2 (Note.new "a" "A" 1) rfl).1

/-! ## Claim C8: search semantics -/

/-- Every list has the empty list as a contiguous substring. -/
theorem emptySubstring {α : Type} (l : List α) : [] <:+: l :=
  ⟨[], l, by simp⟩

/-- C8: `search_by_title` returns exactly the notes whose lower-cased title
contains the lower-cased query as a substring, `search_by_content` does
the same on content, `search` matches on title or content, and the empty
query matches every note. -/
theorem search_case_insensitive_substring (nb : Notebook) (q : String) :
    (∀ n, n ∈ nb.search_by_title q ↔
      n ∈ nb.notesVals ∧ (rustLower q).toList <:+: (rustLower n.title).toList) ∧
    (∀ n, n ∈ nb.search_by_content q ↔
      n ∈ nb.notesVals ∧ (rustLower q).toList <:+: (rustLower n.content).toList) ∧
    (∀ n, n ∈ nb.search q ↔
      n ∈ nb.notesVals ∧ ((rustLower q).toList <:+: (rustLower n.title).toList ∨
        (rustLower q).toList <:+: (rustLower n.content).toList)) ∧
    nb.search_by_title "" = nb.notesVals ∧
    nb.search_by_content "" = nb.notesVals ∧
    nb.search "" = nb.notesVals := by
  have hemp : (rustLower "").data = [] := rfl
  refine ⟨?_, ?_, ?_, ?_, ?_, ?_⟩
  · intro n
    simp [Notebook.search_by_title, List.mem_filter, strContains]
  · intro n
    simp [Notebook.search_by_content, List.mem_filter, strContains]
  · intro n
    simp [Notebook.search, List.mem_filter, strContains]
  · exact List.filter_eq_self.mpr fun a _ => by simp [strContains, hemp, emptySubstring]
  · exact List.filter_eq_self.mpr fun a _ => by simp [strContains, hemp, emptySubstring]
  · exact List.filter_eq_self.mpr fun a _ => by simp [strContains, hemp, emptySubstring]

/-! ## Claim C6: links never hold a self-reference or a duplicate -/

/-- Notes reachable through the `Note` operations of `note.rs`. -/
inductive NoteBuilt : Note → Prop where
  | new (id : NoteId) (title : String) (now : Nat) :
      NoteBuilt (Note.new id title now)
  | add_link (n : Note) (t : NoteId) (now : Nat) :
      NoteBuilt n → NoteBuilt (n.add_link t now)
  | remove_link (n : Note) (t : NoteId) (now : Nat) :
      NoteBuilt n → NoteBuilt (n.remove_link t now).1

/-- Notebooks reachable through the note-building `Notebook` operations. -/
inductive NotebookBuilt : Notebook → Prop where
  | new (name : String) (now : Nat) :
      NotebookBuilt (Notebook.new name now)
  | create_note (nb : Notebook) (id : NoteId) (title : String) (now : Nat) :
      NotebookBuilt nb → NotebookBuilt (nb.create_note id title now).2
  | link_notes (nb : Notebook) (f t : NoteId) (now : Nat) :
      NotebookBuilt nb → NotebookBuilt (nb.link_notes f t now).2

/-- The well-formedness of a note's `links`: no duplicate, no self-reference. -/
def WfLinks (n : Note) : Prop :=
  n.links.Nodup ∧ n.id ∉ n.links

theorem WfLinks_add_link {n : Note} (h : WfLinks n) (t : NoteId) (now : Nat) :
    WfLinks (n.add_link t now) := by
  unfold Note.add_link
  by_cases hc : t ∉ n.links ∧ t ≠ n.id
  · rw [if_pos hc]
    obtain ⟨hnd, hself⟩ := h
    refine ⟨?_, ?_⟩
    · show (n.links ++ [t]).Nodup
      simp [List.nodup_append, hnd, hc.1]
    · show n.id ∉ n.links ++ [t]
      simp [List.mem_append, hself]
      exact fun he => hc.2 he.symm
  · rw [if_neg hc]
    exact h

theorem WfLinks_remove_link {n : Note} (h : WfLinks n) (t : NoteId) (now : Nat) :
    WfLinks (n.remove_link t now).1 := by
  unfold Note.remove_link
  by_cases hm : t ∈ n.links
  · rw [if_pos hm]
    exact ⟨h.1.erase t, fun hx => h.2 (List.mem_of_mem_erase hx)⟩
  · rw [if_neg hm]
    exact h

theorem mem_alInsert {α β : Type} [DecidableEq α] {p : α × β} {k : α} {v : β}
    {l : List (α × β)} (h : p ∈ alInsert k v l) : p = (k, v) ∨ p ∈ l := by
  induction l with
  | nil => simpa [alInsert] using h
  | cons q rest ih =>
    obtain ⟨k', v'⟩ := q
    by_cases he : k = k'
    · subst he
      simp [alInsert] at h
      rcases h with h | h
      · exact .inl h
      · exact .inr (List.mem_cons_of_mem _ h)
    · simp [alInsert, he] at h
      rcases h with h | h
      · exact .inr (by simp [h])
      · rcases ih h with h2 | h2
        · exact .inl h2
        · exact .inr (List.mem_cons_of_mem _ h2)

theorem mem_alUpdate {α β : Type} [DecidableEq α] {p : α × β} {k : α} {g : β → β}
    {l : List (α × β)} (h : p ∈ alUpdate k g l) :
    p ∈ l ∨ ∃ v, (k, v) ∈ l ∧ p = (k, g v) := by
  induction l with
  | nil => simp [alUpdate] at h
  | cons q rest ih =>
    obtain ⟨k', v'⟩ := q
    by_cases he : k = k'
    · subst he
      simp [alUpdate] at h
      rcases h with h | h
      · exact .inr ⟨v', by simp, h⟩
      · exact .inl (List.mem_cons_of_mem _ h)
    · simp [alUpdate, he] at h
      rcases h with h | h
      · exact .inl (by simp [h])
      · rcases ih h with h2 | h2
        · exact .inl (List.mem_cons_of_mem _ h2)
        · obtain ⟨v, hv, hp⟩ := h2
          exact .inr ⟨v, List.mem_cons_of_mem _ hv, hp⟩

theorem NotebookBuilt_wfLinks {nb : Notebook} (hnb : NotebookBuilt nb) :
    ∀ p ∈ nb.notes, WfLinks p.2 := by
  induction hnb with
  | new name now => intro p hp; cases hp
  | create_note nb id title now _ ih =>
    intro p hp
    unfold Notebook.create_note Notebook.add_note at hp
    simp only at hp
    rcases mem_alInsert hp with h | h
    · rw [h]
      exact ⟨List.nodup_nil, by simp [Note.new]⟩
    · exact ih p h
  | link_notes nb f t now _ ih =>
    intro p hp
    unfold Notebook.link_notes at hp
    by_cases h1 : (alGet f nb.notes).isNone
    · rw [if_pos h1] at hp
      exact ih p hp
    · rw [if_neg h1] at hp
      by_cases h2 : (alGet t nb.notes).isNone
      · rw [if_pos h2] at hp
        exact ih p hp
      · rw [if_neg h2] at hp
        simp only at hp
        rcases mem_alUpdate hp with h | h
        · exact ih p h
        · obtain ⟨v, hv, hpv⟩ := h
          rw [hpv]
          exact WfLinks_add_link (ih (f, v) hv) t now

/-- C6: every note built through the `Note` operations, and every note
stored in a notebook built through `new` / `create_note` / `link_notes`,
has a `links` vector with no duplicate target and no self-reference. -/
theorem builtNotes_links_wellFormed (n : Note) (hn : NoteBuilt n)
    (nb : Notebook) (hnb : NotebookBuilt nb) :
    (n.links.Nodup ∧ n.id ∉ n.links) ∧
    ∀ p ∈ nb.notes, p.2.links.Nodup ∧ p.2.id ∉ p.2.links := by
  constructor
  · induction hn with
    | new id title now => exact ⟨List.nodup_nil, by simp [Note.new]⟩
    | add_link n t now _ ih => exact WfLinks_add_link ih t now
    | remove_link n t now _ ih => exact WfLinks_remove_link ih t now
  · exact NotebookBuilt_wfLinks hnb

/-- Witness for C6: a concrete built note (with a link and a failed
self-link attempt) and a concrete built notebook. -/
theorem builtNotes_links_wellFormed_witness :
    ((((Note.new "x" "X" 0).add_link "y" 1).add_link "x" 2).links.Nodup ∧
      (((Note.new "x" "X" 0).add_link "y" 1).add_link "x" 2).id ∉
        (((Note.new "x" "X" 0).add_link "y" 1).add_link "x" 2).links) ∧
    ∀ p ∈ (twoNoteNb.link_notes "a" "b" 2).2.notes,
      p.2.links.Nodup ∧ p.2.id ∉ p.2.links :=
  builtNotes_links_wellFormed _
    (.add_link _ "x" 2 (.add_link _ "y" 1 (.new "x" "X" 0)))
    _
    (.link_notes _ "a" "b" 2 (.create_note _ "b" "B" 1
      (.create_note _ "a" "A" 1 (.new "N" 0))))

/-! ## Claim C2: the `remove_note` cascade -/

/-- The source's `remove_link(target)` leaves `links` equal to the old
`links` with the first occurrence of `target` erased. -/
theorem Note.remove_link_links (n : Note) (t : NoteId) (now : Nat) :
    ((n.remove_link t now).1).links = n.links.erase t := by
  unfold Note.remove_link
  by_cases hm : t ∈ n.links
  · simp [hm]
  · simp [hm, List.erase_of_not_mem hm]

/-- Well-formedness of a notebook state: every stored note has nodup links
and no self-reference under its key, and every forward link is mirrored in
the backlink index. -/
def Notebook.Wf (nb : Notebook) : Prop :=
  (∀ p ∈ nb.notes, p.2.links.Nodup ∧ p.1 ∉ p.2.links) ∧
  (∀ p ∈ nb.notes, ∀ t ∈ p.2.links, p.1 ∈ nb.get_backlinks t)

/-- C2: on a well-formed notebook, `remove_note(id)` with `id` present
removes the note and returns it; afterwards `id` is no longer a key, no
remaining note has `id` in its `links`, `get_backlinks(id)` is empty, and
`id` is not in `backlinks[target]` for any `target` the removed note linked
to.  For an absent `id`, `remove_note` returns `None` and changes nothing. -/
theorem removeNote_cascade (nb : Notebook) (id : NoteId) (now : Nat) (hwf : nb.Wf) :
    (∀ note, nb.get_note id = some note →
      (nb.remove_note id now).1 = some note ∧
      (nb.remove_note id now).2.get_note id = none ∧
      (∀ k n, (nb.remove_note id now).2.get_note k = some n → id ∉ n.links) ∧
      (nb.remove_note id now).2.get_backlinks id = [] ∧
      (∀ t, t ∈ note.links → id ∉ (nb.remove_note id now).2.get_backlinks t)) ∧
    (nb.get_note id = none → nb.remove_note id now = (none, nb)) := by
  obtain ⟨hwf1, hwf2⟩ := hwf
  constructor
  · intro note hid
    unfold Notebook.get_note at hid
    have hred : nb.remove_note id now =
        (some note,
          { nb with
              notes := ((alGet id (note.links.foldl
                  (fun bl t => alUpdate t (setRemove id) bl) nb.backlinks)).getD []).foldl
                  (fun ns s => alUpdate s (fun n => (n.remove_link id now).1) ns)
                  (alRemove id nb.notes),
              backlinks := alRemove id (note.links.foldl
                  (fun bl t => alUpdate t (setRemove id) bl) nb.backlinks),
              modified_at := now }) := by
      unfold Notebook.remove_note
      rw [hid]
    rw [hred]
    unfold Notebook.get_note Notebook.get_backlinks
    simp only
    set bl1 := note.links.foldl (fun bl t => alUpdate t (setRemove id) bl) nb.backlinks
      with hbl1
    set notes1 := alRemove id nb.notes with hnotes1
    set sources := (alGet id bl1).getD [] with hsources
    set notes2 := sources.foldl
      (fun ns s => alUpdate s (fun n => (n.remove_link id now).1) ns) notes1 with hnotes2
    -- the removed note's own links are nodup and self-free
    have hnote_wf := hwf1 (id, note) (alGet_mem hid)
    -- phase 1 does not touch `backlinks[id]` since `id ∉ note.links`
    have hbl1_id : alGet id bl1 = alGet id nb.backlinks := by
      rw [hbl1]
      exact alGet_foldl_alUpdate_not_mem (setRemove id) note.links nb.backlinks id hnote_wf.2
    -- nodup links of everything stored in `notes1`
    have hnodup1 : ∀ k v, alGet k notes1 = some v → v.links.Nodup := by
      intro k v h
      by_cases he : k = id
      · subst he; rw [hnotes1, alGet_alRemove_self] at h; cases h
      · rw [hnotes1, alGet_alRemove_ne he] at h
        exact (hwf1 (k, v) (alGet_mem h)).1
    refine ⟨trivial, ?_, ?_, ?_, ?_⟩
    · -- `id` is gone from the notes map
      apply alGet_foldl_alUpdate_none
      rw [hnotes1]
      exact alGet_alRemove_self ..
    · -- no remaining note keeps `id` in its links
      intro k n hk
      by_cases hmem : k ∈ sources
      · refine alGet_foldl_alUpdate_mem (fun n => (n.remove_link id now).1)
          (fun n => id ∉ n.links) (fun n => n.links.Nodup)
          ?_ ?_ ?_ sources notes1 hnodup1 k hmem n hk
        · intro b hb
          rw [Note.remove_link_links]
          exact hb.erase id
        · intro b hb
          rw [Note.remove_link_links]
          exact hb.not_mem_erase
        · intro b hb
          rw [Note.remove_link_links]
          exact fun hx => hb (List.mem_of_mem_erase hx)
      · rw [alGet_foldl_alUpdate_not_mem _ sources notes1 k hmem] at hk
        by_cases he : k = id
        · subst he; rw [hnotes1, alGet_alRemove_self] at hk; cases hk
        · rw [hnotes1, alGet_alRemove_ne he] at hk
          intro hidlinks
          apply hmem
          rw [hsources, hbl1_id]
          exact hwf2 (k, n) (alGet_mem hk) id hidlinks
    · -- `backlinks[id]` is dropped entirely
      rw [alGet_alRemove_self]
      rfl
    · -- `id` purged from `backlinks[t]` for every old target `t`
      intro t ht
      by_cases he : t = id
      · subst he
        rw [alGet_alRemove_self]
        simp
      · rw [alGet_alRemove_ne he]
        have hmem := alGet_foldl_alUpdate_mem (setRemove id)
          (fun s => id ∉ s) (fun _ => True)
          (fun _ _ => trivial) (fun b _ => not_mem_setRemove id b)
          (fun b hb => fun hx => hb (mem_setRemove_iff.mp hx).1)
          note.links nb.backlinks (fun _ _ _ => trivial) t ht
        rw [← hbl1] at hmem
        cases h2 : alGet t bl1 with
        | none => simp
        | some s => simpa using hmem s h2
  · intro h
    unfold Notebook.get_note at h
    unfold Notebook.remove_note
    rw [h]

/-- The two-note notebook with `a → b` linked, used by witnesses. -/
def linkedNb : Notebook :=
  (twoNoteNb.link_notes "a" "b" 2).2

/-- Witness for C2: removing `"b"` from the concrete linked notebook. -/
theorem removeNote_cascade_witness :
    (linkedNb.remove_note "b" 3).1 = some (Note.new "b" "B" 1) ∧
    (∀ k n, (linkedNb.remove_note "b" 3).2.get_note k = some n → "b" ∉ n.links) ∧
    (linkedNb.remove_note "b" 3).2.get_backlinks "b" = [] :=
  have h := (removeNote_cascade linkedNb "b" 3 ⟨by decide, by decide⟩).1
    (Note.new "b" "B" 1) rfl
  ⟨h.1, h.2.2.1, h.2.2.2.1⟩

/-! ## Claim C3: storage round trip (`storage.rs` + the serde derives)

`serde_json::to_string_pretty` / `from_str` are modelled at the JSON value
level: the string layer (printing and parsing of a JSON document, the
uuid / RFC3339 / finite-double scalar codecs) is injective and lossless in
`serde_json`, so it is modelled by the `Json` tree itself.  The field-level
behaviour of the `#[derive(Serialize, Deserialize)]` on `Note` and
`Notebook` — field names, `skip_serializing_if` on empty/absent fields,
`#[serde(default)]` and the implicit `Option` default on missing fields —
is modelled exactly. -/

/-- One optional struct field under `#[serde(skip_serializing_if = "Option::is_none")]`. -/
def optField {α : Type} (name : String) (o : Option α) (e : α → Json) :
    List (String × Json) :=
  match o with
  | none => []
  | some x => [(name, e x)]

/-- One collection field under `#[serde(skip_serializing_if = "..is_empty")]`. -/
def listField {α : Type} (name : String) (l : List α) (e : List α → Json) :
    List (String × Json) :=
  if l.isEmpty then [] else [(name, e l)]

/-- Serde serialization of an `f64`: a finite double prints losslessly as a
JSON number; `serde_json` writes NaN and the infinities as `null`. -/
def encodeF64 : F64 → Json
  | .finite q => .num q
  | _ => .null

/-- Model of `Point2D` serializes as `{"x": .., "y": ..}`. -/
def encodePoint (p : Point2D) : Json :=
  .obj [("x", encodeF64 p.x), ("y", encodeF64 p.y)]

/-- A `(f64, f64)` tuple serializes as a two-element array. -/
def encodeSize (s : F64 × F64) : Json :=
  .arr [encodeF64 s.1, encodeF64 s.2]

/-- A `Vec<NoteId>` serializes as an array of uuid strings. -/
def encodeIds (l : List NoteId) : Json :=
  .arr (l.map .str)

/-- Serde serialization of `Note`, fields in declaration order. -/
def noteFields (n : Note) : List (String × Json) :=
  [("id", .str n.id), ("title", .str n.title), ("content", .str n.content)]
    ++ optField "position" n.position encodePoint
    ++ optField "size" n.size encodeSize
    ++ [("created_at", .time n.created_at), ("modified_at", .time n.modified_at)]
    ++ listField "links" n.links encodeIds
    ++ optField "prototype" n.prototype .str
    ++ listField "attributes" n.attributes (fun a => .obj a)

def encodeNote (n : Note) : Json :=
  .obj (noteFields n)

/-- Serde serialization of `Notebook` (the `backlinks` map carries no skip
attribute, so it is always emitted). -/
def encodeNotebook (nb : Notebook) : Json :=
  .obj [("notes", .obj (nb.notes.map (fun p => (p.1, encodeNote p.2)))),
        ("backlinks", .obj (nb.backlinks.map (fun p => (p.1, encodeIds p.2)))),
        ("name", .str nb.name),
        ("created_at", .time nb.created_at),
        ("modified_at", .time nb.modified_at)]

def decStr : Json → Option String
  | .str s => some s
  | _ => none

def decTime : Json → Option Nat
  | .time t => some t
  | _ => none

/-- Serde deserialization of an `f64`: only a JSON number is accepted; in
particular the `null` written for a non-finite value fails to parse. -/
def decF64 : Json → Option F64
  | .num q => some (.finite q)
  | _ => none

def decPoint : Json → Option Point2D
  | .obj fs => do
    let x ← (alGet "x" fs).bind decF64
    let y ← (alGet "y" fs).bind decF64
    some ⟨x, y⟩
  | _ => none

def decSize : Json → Option (F64 × F64)
  | .arr [jx, jy] => do
    let x ← decF64 jx
    let y ← decF64 jy
    some (x, y)
  | _ => none

/-- Deserialize each element of a JSON array. -/
def decList {α : Type} (d : Json → Option α) : List Json → Option (List α)
  | [] => some []
  | j :: rest => do
    let x ← d j
    let r ← decList d rest
    some (x :: r)

def decIdList : Json → Option (List NoteId)
  | .arr xs => decList decStr xs
  | _ => none

/-- An `Option` field: missing means `None` (serde's implicit option default). -/
def decOptField {α : Type} (d : Json → Option α) : Option Json → Option (Option α)
  | none => some none
  | some j => (d j).map some

/-- Deserialize each entry of a JSON map object. -/
def decEntries {α : Type} (d : Json → Option α) :
    List (String × Json) → Option (List (String × α))
  | [] => some []
  | (k, j) :: rest => do
    let v ← d j
    let r ← decEntries d rest
    some ((k, v) :: r)

/-- Serde deserialization of `Note`. -/
def decodeNote : Json → Option Note
  | .obj fs => do
    let id ← (alGet "id" fs).bind decStr
    let title ← (alGet "title" fs).bind decStr
    let content ← (alGet "content" fs).bind decStr
    let position ← decOptField decPoint (alGet "position" fs)
    let size ← decOptField decSize (alGet "size" fs)
    let created ← (alGet "created_at" fs).bind decTime
    let modified ← (alGet "modified_at" fs).bind decTime
    let links ← match alGet "links" fs with
      | none => some []
      | some j => decIdList j
    let prototype ← decOptField decStr (alGet "prototype" fs)
    let attributes ← match alGet "attributes" fs with
      | none => some ([] : List (String × Json))
      | some (.obj a) => some a
      | some _ => none
    some { id := id, title := title, content := content, position := position,
           size := size, created_at := created, modified_at := modified,
           links := links, prototype := prototype, attributes := attributes }
  | _ => none

/-- Serde deserialization of `Notebook`. -/
def decodeNotebook : Json → Option Notebook
  | .obj fs => do
    let notes ← match alGet "notes" fs with
      | some (.obj entries) => decEntries decodeNote entries
      | _ => none
    let backlinks ← match alGet "backlinks" fs with
      | none => some ([] : List (NoteId × List NoteId))
      | some (.obj entries) => decEntries decIdList entries
      | some _ => none
    let name ← (alGet "name" fs).bind decStr
    let created ← (alGet "created_at" fs).bind decTime
    let modified ← (alGet "modified_at" fs).bind decTime
    some { notes := notes, backlinks := backlinks, name := name,
           created_at := created, modified_at := modified }
  | _ => none

/-- Model of `enum StorageError` (`Json` is the serde error variant). -/
inductive StorageError : Type where
  | Io : StorageError
  | JsonErr : StorageError
  | NotFound (path : String) : StorageError

/-- Model of `JsonStorage::save`: serialize and write, overwriting the destination.
The file system is modelled as a path-indexed map of stored documents. -/
def JsonStorage.save (fsys : List (String × Json)) (nb : Notebook) (path : String) :
    List (String × Json) :=
  alInsert path (encodeNotebook nb) fsys

/-- Model of `JsonStorage::load`: not-found check, then read and deserialize. -/
def JsonStorage.load (fsys : List (String × Json)) (path : String) :
    Except StorageError Notebook :=
  match alGet path fsys with
  | none => .error (.NotFound path)
  | some j =>
    match decodeNotebook j with
    | some nb => .ok nb
    | none => .error .JsonErr

section CodecLemmas

theorem alGet_optField_self {α : Type} (name : String) (o : Option α) (e : α → Json) :
    alGet name (optField name o e) = o.map e := by
  cases o <;> simp [optField, alGet]

theorem alGet_optField_ne {α : Type} {k name : String} (h : k ≠ name)
    (o : Option α) (e : α → Json) : alGet k (optField name o e) = none := by
  cases o <;> simp [optField, alGet, h]

theorem alGet_listField_self {α : Type} (name : String) (l : List α) (e : List α → Json) :
    alGet name (listField name l e) =
      if l.isEmpty then none else some (e l) := by
  by_cases h : l.isEmpty <;> simp [listField, alGet, h]

theorem alGet_listField_ne {α : Type} {k name : String} (h : k ≠ name)
    (l : List α) (e : List α → Json) : alGet k (listField name l e) = none := by
  by_cases h2 : l.isEmpty <;> simp [listField, alGet, h, h2]

theorem noteFields_id (n : Note) : alGet "id" (noteFields n) = some (.str n.id) := by
  simp [noteFields, alGet_append, alGet]

theorem noteFields_title (n : Note) : alGet "title" (noteFields n) = some (.str n.title) := by
  simp [noteFields, alGet_append, alGet]

theorem noteFields_content (n : Note) :
    alGet "content" (noteFields n) = some (.str n.content) := by
  simp [noteFields, alGet_append, alGet]

theorem noteFields_position (n : Note) :
    alGet "position" (noteFields n) = n.position.map encodePoint := by
  simp [noteFields, alGet_append, alGet, alGet_optField_self, alGet_optField_ne,
    alGet_listField_ne]
  cases n.position <;> simp

theorem noteFields_size (n : Note) :
    alGet "size" (noteFields n) = n.size.map encodeSize := by
  simp [noteFields, alGet_append, alGet, alGet_optField_self, alGet_optField_ne,
    alGet_listField_ne]
  cases n.size <;> simp

theorem noteFields_created (n : Note) :
    alGet "created_at" (noteFields n) = some (.time n.created_at) := by
  simp [noteFields, alGet_append, alGet, alGet_optField_ne]

theorem noteFields_modified (n : Note) :
    alGet "modified_at" (noteFields n) = some (.time n.modified_at) := by
  simp [noteFields, alGet_append, alGet, alGet_optField_ne]

theorem noteFields_links (n : Note) :
    alGet "links" (noteFields n) =
      if n.links.isEmpty then none else some (encodeIds n.links) := by
  simp [noteFields, alGet_append, alGet, alGet_optField_ne, alGet_listField_self,
    alGet_listField_ne]
  split <;> simp

theorem noteFields_prototype (n : Note) :
    alGet "prototype" (noteFields n) = n.prototype.map Json.str := by
  simp [noteFields, alGet_append, alGet, alGet_optField_ne, alGet_listField_ne,
    alGet_optField_self]
  cases n.prototype <;> simp

theorem noteFields_attributes (n : Note) :
    alGet "attributes" (noteFields n) =
      if n.attributes.isEmpty then none else some (.obj n.attributes) := by
  simp [noteFields, alGet_append, alGet, alGet_optField_ne, alGet_listField_ne,
    alGet_listField_self]

theorem decF64_encodeF64 {x : F64} (h : x.isFinite = true) :
    decF64 (encodeF64 x) = some x := by
  cases x with
  | finite q => rfl
  | nan => simp [F64.isFinite] at h
  | inf => simp [F64.isFinite] at h
  | neginf => simp [F64.isFinite] at h

theorem decPoint_encodePoint (p : Point2D) (hx : p.x.isFinite = true)
    (hy : p.y.isFinite = true) : decPoint (encodePoint p) = some p := by
  obtain ⟨x, y⟩ := p
  simp [encodePoint, decPoint, alGet, decF64_encodeF64 hx, decF64_encodeF64 hy]

theorem decSize_encodeSize (s : F64 × F64) (hx : s.1.isFinite = true)
    (hy : s.2.isFinite = true) : decSize (encodeSize s) = some s := by
  obtain ⟨x, y⟩ := s
  simp [encodeSize, decSize, decF64_encodeF64 hx, decF64_encodeF64 hy]

theorem decList_str (l : List String) : decList decStr (l.map .str) = some l := by
  induction l with
  | nil => rfl
  | cons x rest ih => simp [decList, decStr, ih]

theorem decIdList_encodeIds (l : List NoteId) : decIdList (encodeIds l) = some l := by
  simp [encodeIds, decIdList, decList_str]

theorem decOptField_point {o : Option Point2D}
    (h : ∀ p, o = some p → p.x.isFinite = true ∧ p.y.isFinite = true) :
    decOptField decPoint (o.map encodePoint) = some o := by
  cases o with
  | none => rfl
  | some p =>
    obtain ⟨hx, hy⟩ := h p rfl
    simp [decOptField, decPoint_encodePoint p hx hy]

theorem decOptField_size {o : Option (F64 × F64)}
    (h : ∀ v, o = some v → v.1.isFinite = true ∧ v.2.isFinite = true) :
    decOptField decSize (o.map encodeSize) = some o := by
  cases o with
  | none => rfl
  | some v =>
    obtain ⟨hx, hy⟩ := h v rfl
    simp [decOptField, decSize_encodeSize v hx hy]

theorem decOptField_str (o : Option String) :
    decOptField decStr (o.map Json.str) = some o := by
  cases o <;> simp [decOptField, decStr]

theorem decEntries_map {α : Type} (d : Json → Option α) (e : α → Json)
    (h : ∀ x, d (e x) = some x) (l : List (String × α)) :
    decEntries d (l.map (fun p => (p.1, e p.2))) = some l := by
  induction l with
  | nil => rfl
  | cons p rest ih => simp [decEntries, h p.2, ih]

theorem decEntries_mapH {α : Type} (d : Json → Option α) (e : α → Json)
    (l : List (String × α)) (h : ∀ p ∈ l, d (e p.2) = some p.2) :
    decEntries d (l.map (fun p => (p.1, e p.2))) = some l := by
  induction l with
  | nil => rfl
  | cons p rest ih =>
    simp [decEntries, h p (List.mem_cons_self ..),
      ih (fun q hq => h q (List.mem_cons_of_mem _ hq))]

/-- Whether every position/size coordinate stored on a note is finite. -/
def Note.finiteFloats (n : Note) : Bool :=
  (match n.position with
    | none => true
    | some p => p.x.isFinite && p.y.isFinite) &&
  (match n.size with
    | none => true
    | some v => v.1.isFinite && v.2.isFinite)

/-- Whether every note of the notebook has only finite coordinates. -/
def Notebook.finiteFloats (nb : Notebook) : Bool :=
  nb.notes.all (fun p => p.2.finiteFloats)

/-- The serde round trip on a single note. -/
theorem decodeNote_encodeNote (n : Note) (hff : n.finiteFloats = true) :
    decodeNote (encodeNote n) = some n := by
  have hid := noteFields_id n
  have hti := noteFields_title n
  have hco := noteFields_content n
  have hpo := noteFields_position n
  have hsi := noteFields_size n
  have hcr := noteFields_created n
  have hmo := noteFields_modified n
  have hli := noteFields_links n
  have hpr := noteFields_prototype n
  have hat := noteFields_attributes n
  show decodeNote (.obj (noteFields n)) = some n
  simp only [decodeNote]
  rw [hid, hti, hco, hpo, hsi, hcr, hmo, hli, hpr, hat]
  obtain ⟨idv, title, content, position, size, ca, ma, links, proto, attrs⟩ := n
  simp only [Note.finiteFloats, Bool.and_eq_true] at hff
  have hposrt : decOptField decPoint (position.map encodePoint) = some position := by
    apply decOptField_point
    intro pv hp
    subst hp
    simpa [Bool.and_eq_true] using hff.1
  have hsizert : decOptField decSize (size.map encodeSize) = some size := by
    apply decOptField_size
    intro sv hv
    subst hv
    simpa [Bool.and_eq_true] using hff.2
  simp only
  by_cases hl : links.isEmpty
  · rw [List.isEmpty_iff] at hl
    subst hl
    by_cases ha : attrs.isEmpty
    · rw [List.isEmpty_iff] at ha
      subst ha
      simp [decStr, decTime, hposrt, hsizert, decOptField_str]
    · simp [ha, decStr, decTime, hposrt, hsizert, decOptField_str]
  · by_cases ha : attrs.isEmpty
    · rw [List.isEmpty_iff] at ha
      subst ha
      simp [hl, decStr, decTime, hposrt, hsizert, decOptField_str,
        decIdList_encodeIds]
    · simp [hl, ha, decStr, decTime, hposrt, hsizert, decOptField_str,
        decIdList_encodeIds]

/-- The serde round trip on a whole notebook. -/
theorem decodeNotebook_encodeNotebook (nb : Notebook) (hff : nb.finiteFloats = true) :
    decodeNotebook (encodeNotebook nb) = some nb := by
  have hnotes : decEntries decodeNote (nb.notes.map (fun p => (p.1, encodeNote p.2))) =
      some nb.notes := by
    apply decEntries_mapH
    intro q hq
    apply decodeNote_encodeNote
    unfold Notebook.finiteFloats at hff
    rw [List.all_eq_true] at hff
    exact hff q hq
  unfold encodeNotebook decodeNotebook
  simp [alGet, hnotes,
    decEntries_map decIdList encodeIds decIdList_encodeIds, decStr, decTime]

end CodecLemmas

/-- A note whose position carries a NaN coordinate (constructible in Rust:
`Note`'s fields are public and `with_position` accepts any `f64`). -/
def nanNote : Note :=
  { Note.new "x" "X" 0 with position := some ⟨.nan, .finite 0⟩ }

/-- A notebook holding `nanNote`, reached by a public operation. -/
def nanNb : Notebook :=
  ((Notebook.new "N" 0).add_note nanNote 1).2

/-- C3 counterexample: for a notebook with a non-finite coordinate the save
succeeds — `serde_json` serializes a NaN/infinite `f64` as `null` — but the
load then fails with a deserialization error (`null` is not an `f64`), so
`load` after `save` does not return a notebook at all, let alone an
observationally equivalent one. -/
theorem storage_round_trip_nan_counterexample :
    JsonStorage.load (JsonStorage.save [] nanNb "nb.json") "nb.json" =
      Except.error StorageError.JsonErr ∧
    ∀ nb', JsonStorage.load (JsonStorage.save [] nanNb "nb.json") "nb.json" ≠
      Except.ok nb' := by
  have h : JsonStorage.load (JsonStorage.save [] nanNb "nb.json") "nb.json" =
      Except.error StorageError.JsonErr := rfl
  exact ⟨h, fun nb' hc => by rw [h] at hc; exact Except.noConfusion hc⟩

/-- C3 (amended): for any notebook whose position and size coordinates are
all finite, loading from a path immediately after saving to it returns a
notebook equal to the original in every observable field — note ids,
titles, contents, positions, sizes, links in order, prototypes, attribute
bags, the backlink index, and the notebook's name and timestamps —
including the empty notebook, one with link-free notes, and one with
attribute values of mixed nested shapes.  (A non-finite coordinate breaks
the round trip: see the counterexample above.) -/
theorem storage_round_trip (fsys : List (String × Json)) (nb : Notebook) (path : String)
    (hff : nb.finiteFloats = true) :
    JsonStorage.load (JsonStorage.save fsys nb path) path = .ok nb := by
  unfold JsonStorage.save JsonStorage.load
  rw [alGet_alInsert_self]
  simp [decodeNotebook_encodeNotebook nb hff]

/-- A notebook with a finite position/size, a link, and mixed-shape
attribute values, for the round-trip witness. -/
def rtNote : Note :=
  { id := "x", title := "T", content := "c",
    position := some ⟨.finite (1/2), .finite 3⟩,
    size := some (.finite 4, .finite 5), created_at := 10, modified_at := 11,
    links := ["y"], prototype := some "p",
    attributes := [("k", .arr [.num 1, .num 2]), ("b", .bool true)] }

/-- The notebook holding `rtNote` plus its backlink index. -/
def rtNb : Notebook :=
  { notes := [("x", rtNote)], backlinks := [("y", ["x"])],
    name := "NB", created_at := 1, modified_at := 2 }

/-- Witness for C3 at a concrete notebook with finite coordinates. -/
theorem storage_round_trip_witness :
    JsonStorage.load (JsonStorage.save [] rtNb "nb.json") "nb.json" = .ok rtNb :=
  storage_round_trip [] rtNb "nb.json" (by decide)
